import Mathlib

/-!
Verification of the signal-generation and trade-simulation engine of
src/sma_strategy.py (function sma_crossover_strategy).

Modelling choices:
* A price bar is a date (integer day number; pandas timestamps differing by
  whole days) and a close price (exact rational, standing for the float).
* Rolling means (pandas rolling(w).mean()) yield an Option Rat per index:
  none while fewer than w observations exist, mirroring NaN.
* The Signal column (lines 21-23) defaults to 0 and is set to 1 / -1 where
  the SMA comparison holds; comparisons against NaN are false in pandas, so
  a bar with an absent SMA keeps signal 0.
* Position = Signal.diff() (line 24): none at index 0, signal difference
  afterwards.
* The backtest loop (lines 30-44) is a fold over the bar indices carrying
  the open entry (entry_date, entry_price) and the accumulated trade list.
* Python round(x, 2) is modelled as decimal rounding half-to-even.
-/

structure PriceBar where
  date : Int
  close : Rat
deriving Repr, DecidableEq

abbrev PriceSeries := List PriceBar

/-- The Close column of the dataframe. -/
def closes (s : PriceSeries) : List Rat := s.map (fun b => b.close)

/-- Bar at position i (df.iloc[i]); junk default outside the range,
never consulted by the loop, which runs over range(len(df)). -/
def barAt (s : PriceSeries) (i : Nat) : PriceBar := s.getD i ⟨0, 0⟩

/-- Rolling mean of the closes with window w at index i:
df['Close'].rolling(w).mean() (lines 17-18). Absent (NaN) until the
window is full. -/
def smaAt (s : PriceSeries) (w i : Nat) : Option Rat :=
  if w ≤ i + 1 then some ((((closes s).take (i + 1)).drop (i + 1 - w)).sum / (w : Rat)) else none

/-- The Signal column (lines 21-23): initialized to 0, set to 1 where
SMA_Short > SMA_Long and to -1 where SMA_Short < SMA_Long.  A NaN in
either SMA makes both comparisons false, so the default 0 survives. -/
def signalAt (s : PriceSeries) (w1 w2 i : Nat) : Int :=
  match smaAt s w1 i, smaAt s w2 i with
  | some a, some b => if a > b then 1 else if a < b then -1 else 0
  | _, _ => 0

/-- The Position column, df['Signal'].diff() (line 24): NaN at index 0,
current signal minus previous signal afterwards. -/
def positionAt (s : PriceSeries) (w1 w2 : Nat) (i : Nat) : Option Int :=
  if i = 0 then none else some (signalAt s w1 w2 i - signalAt s w1 w2 (i - 1))

structure Trade where
  entryDate : Int
  entryPrice : Rat
  exitDate : Int
  exitPrice : Rat
  retPct : Rat
  holdingDays : Int
deriving Repr, DecidableEq

/-- One iteration of the backtest loop (lines 31-44) at bar i.  State is
(open entry as (entry_date, entry_price), trades so far).  Position == 2
records/overwrites the entry; Position == -2 with an open entry appends
the completed trade and clears the entry; everything else is a no-op. -/
def stepTrade (w1 w2 : Nat) (s : PriceSeries) (st : Option (Int × Rat) × List Trade)
    (i : Nat) : Option (Int × Rat) × List Trade :=
  if positionAt s w1 w2 i = some 2 then
    (some ((barAt s i).date, (barAt s i).close), st.2)
  else if positionAt s w1 w2 i = some (-2) then
    match st.1 with
    | some e => (none, st.2 ++ [⟨e.1, e.2, (barAt s i).date, (barAt s i).close,
        ((barAt s i).close - e.2) / e.2 * 100, (barAt s i).date - e.1⟩])
    | none => st
  else st

/-- The backtest loop run over the first n bars, from the initial state
(no open entry, empty trade list). -/
def backtestFrom (w1 w2 : Nat) (s : PriceSeries) (n : Nat) :
    Option (Int × Rat) × List Trade :=
  (List.range n).foldl (stepTrade w1 w2 s) (none, [])

/-- The full backtest loop, for i in range(len(df)) (line 30). -/
def runBacktest (w1 w2 : Nat) (s : PriceSeries) : Option (Int × Rat) × List Trade :=
  backtestFrom w1 w2 s s.length

/-- The trade log (lines 46-49): the list of completed trades. -/
def tradeLog (w1 w2 : Nat) (s : PriceSeries) : List Trade :=
  (runBacktest w1 w2 s).2

/-- Decimal rounding half-to-even, the behaviour of Python round. -/
def roundHalfEven (q : Rat) : Int :=
  if q - (⌊q⌋ : Rat) < 1 / 2 then ⌊q⌋
  else if (1 : Rat) / 2 < q - (⌊q⌋ : Rat) then ⌊q⌋ + 1
  else if ⌊q⌋ % 2 = 0 then ⌊q⌋ else ⌊q⌋ + 1

/-- round(x, 2): round to two decimal places. -/
def pyRound2 (q : Rat) : Rat := (roundHalfEven (q * 100) : Rat) / 100

structure Summary where
  totalTrades : Nat
  winRate : Rat
  avgWin : Rat
  avgLoss : Rat
  totalPnl : Rat
deriving Repr, DecidableEq

/-- Summary statistics (lines 52-66).  Empty log: every field 0.
Otherwise: win rate is the share of trades with positive return times 100;
avg win / avg loss are the means over winners / losers, with the pandas NaN
of an empty selection mapped back to 0 by the pd.notnull guard; all four
derived fields go through round(x, 2). -/
def summaryOf (log : List Trade) : Summary :=
  if log = [] then ⟨0, 0, 0, 0, 0⟩
  else
    ⟨log.length,
     pyRound2 (((log.filter (fun t => 0 < t.retPct)).length : Rat) / (log.length : Rat) * 100),
     if log.filter (fun t => 0 < t.retPct) = [] then 0
       else pyRound2 (((log.filter (fun t => 0 < t.retPct)).map (fun t => t.retPct)).sum /
         ((log.filter (fun t => 0 < t.retPct)).length : Rat)),
     if log.filter (fun t => t.retPct < 0) = [] then 0
       else pyRound2 (((log.filter (fun t => t.retPct < 0)).map (fun t => t.retPct)).sum /
         ((log.filter (fun t => t.retPct < 0)).length : Rat)),
     pyRound2 ((log.map (fun t => t.retPct)).sum)⟩

/-- The win rate recomputed directly from a trade log, following the
wording of the spec (share of trades with positive return, as a
percentage; zero for an empty log). -/
def recompWinRate (log : List Trade) : Rat :=
  if log = [] then 0
  else ((log.countP (fun t => 0 < t.retPct) : Nat) : Rat) / (log.length : Rat) * 100

/-- The average winning return recomputed directly from a trade log
(mean return over winning trades; the no-winners sentinel is 0). -/
def recompAvgWin (log : List Trade) : Rat :=
  if log.filter (fun t => 0 < t.retPct) = [] then 0
  else ((log.filter (fun t => 0 < t.retPct)).map (fun t => t.retPct)).sum /
    ((log.filter (fun t => 0 < t.retPct)).length : Rat)

/-- The average losing return recomputed directly from a trade log
(mean return over losing trades; the no-losses sentinel is 0). -/
def recompAvgLoss (log : List Trade) : Rat :=
  if log.filter (fun t => t.retPct < 0) = [] then 0
  else ((log.filter (fun t => t.retPct < 0)).map (fun t => t.retPct)).sum /
    ((log.filter (fun t => t.retPct < 0)).length : Rat)

/-- The total PnL recomputed directly from a trade log (sum of all
returns). -/
def recompTotalPnl (log : List Trade) : Rat :=
  (log.map (fun t => t.retPct)).sum

/-- Five-bar demo series, closes 6, 2, 3, 5, 4 on days 0..4.  With windows
1 and 2 it produces exactly one completed trade: entry on day 2 at 3, exit
on day 4 at 4, return 100/3 percent. -/
def demoC7 : PriceSeries := [⟨0, 6⟩, ⟨1, 2⟩, ⟨2, 3⟩, ⟨3, 5⟩, ⟨4, 4⟩]

/-- Three-bar demo series, closes 6, 2, 3 on days 0..2.  With windows 1
and 2 the last bar opens an entry that is never closed. -/
def demoOpen : PriceSeries := [⟨0, 6⟩, ⟨1, 2⟩, ⟨2, 3⟩]

theorem backtestFrom_succ (w1 w2 : Nat) (s : PriceSeries) (n : Nat) :
    backtestFrom w1 w2 s (n + 1) = stepTrade w1 w2 s (backtestFrom w1 w2 s n) n := by
  unfold backtestFrom
  rw [List.range_succ, List.foldl_append]
  rfl

theorem stepTrade_noop (w1 w2 : Nat) (s : PriceSeries) (st : Option (Int × Rat) × List Trade)
    (i : Nat) (h2 : positionAt s w1 w2 i ≠ some 2) (hm2 : positionAt s w1 w2 i ≠ some (-2)) :
    stepTrade w1 w2 s st i = st := by
  unfold stepTrade
  rw [if_neg h2, if_neg hm2]

theorem foldl_fixed {α β : Type} (f : α → β → α) (l : List β) (a : α)
    (h : ∀ b ∈ l, f a b = a) : l.foldl f a = a := by
  induction l with
  | nil => rfl
  | cons x xs ih =>
    rw [List.foldl_cons, h x (List.mem_cons_self x xs)]
    exact ih (fun b hb => h b (List.mem_cons_of_mem x hb))

theorem smaAt_none (s : PriceSeries) (w i : Nat) (h : ¬ w ≤ i + 1) : smaAt s w i = none := by
  unfold smaAt
  rw [if_neg h]

theorem signalAt_zero_of_long_none (s : PriceSeries) (w1 w2 i : Nat)
    (h : smaAt s w2 i = none) : signalAt s w1 w2 i = 0 := by
  unfold signalAt
  rw [h]
  cases smaAt s w1 i <;> rfl

theorem mem_of_mem_getLast (l : List Trade) (a : Trade) (h : a ∈ l.getLast?) : a ∈ l := by
  obtain ⟨hne, hx⟩ := List.mem_getLast?_eq_getLast h
  rw [hx]
  exact List.getLast_mem hne

theorem demoC7_pos0 : positionAt demoC7 1 2 0 = none := rfl

theorem demoC7_pos1 : positionAt demoC7 1 2 1 = some (-1) := by
  norm_num [positionAt, signalAt, smaAt, closes, demoC7]

theorem demoC7_pos2 : positionAt demoC7 1 2 2 = some 2 := by
  norm_num [positionAt, signalAt, smaAt, closes, demoC7]

theorem demoC7_pos3 : positionAt demoC7 1 2 3 = some 0 := by
  norm_num [positionAt, signalAt, smaAt, closes, demoC7]

theorem demoC7_pos4 : positionAt demoC7 1 2 4 = some (-2) := by
  norm_num [positionAt, signalAt, smaAt, closes, demoC7]

theorem demoC7_run : runBacktest 1 2 demoC7 = (none, [⟨2, 3, 4, 4, 100/3, 2⟩]) := by
  have hlen : demoC7.length = 5 := rfl
  have hr : List.range 5 = [0, 1, 2, 3, 4] := rfl
  rw [runBacktest, hlen]
  unfold backtestFrom
  rw [hr]
  simp only [List.foldl_cons, List.foldl_nil, stepTrade, demoC7_pos0, demoC7_pos1,
    demoC7_pos2, demoC7_pos3, demoC7_pos4]
  norm_num [barAt, demoC7]
  simp

theorem demoC7_tradeLog : tradeLog 1 2 demoC7 = [⟨2, 3, 4, 4, 100/3, 2⟩] := by
  rw [tradeLog, demoC7_run]

theorem demoOpen_pos0 : positionAt demoOpen 1 2 0 = none := rfl

theorem demoOpen_pos1 : positionAt demoOpen 1 2 1 = some (-1) := by
  norm_num [positionAt, signalAt, smaAt, closes, demoOpen]

theorem demoOpen_pos2 : positionAt demoOpen 1 2 2 = some 2 := by
  norm_num [positionAt, signalAt, smaAt, closes, demoOpen]

theorem demoOpen_run : runBacktest 1 2 demoOpen = (some (2, 3), []) := by
  have hlen : demoOpen.length = 3 := rfl
  have hr : List.range 3 = [0, 1, 2] := rfl
  rw [runBacktest, hlen]
  unfold backtestFrom
  rw [hr]
  simp only [List.foldl_cons, List.foldl_nil, stepTrade, demoOpen_pos0, demoOpen_pos1,
    demoOpen_pos2]
  norm_num [barAt, demoOpen]
  simp

theorem roundHalfEven_low (q : Rat) (n : Int) (h1 : (n : Rat) ≤ q) (h2 : q < n + 1)
    (h3 : q - (n : Rat) < 1 / 2) : roundHalfEven q = n := by
  have hf : ⌊q⌋ = n := Int.floor_eq_iff.mpr ⟨h1, h2⟩
  unfold roundHalfEven
  rw [hf, if_pos h3]

theorem pyRound2_low (q : Rat) (n : Int) (h1 : (n : Rat) ≤ q * 100) (h2 : q * 100 < n + 1)
    (h3 : q * 100 - (n : Rat) < 1 / 2) : pyRound2 q = (n : Rat) / 100 := by
  unfold pyRound2
  rw [roundHalfEven_low (q * 100) n h1 h2 h3]

theorem pyRound2_zero : pyRound2 0 = 0 := by
  rw [pyRound2_low 0 0 (by norm_num) (by norm_num) (by norm_num)]
  norm_num

/-- C1: for every series and bar index, the signal is Long (+1) when
smaShort is greater than smaLong, Short (-1) when smaShort is less than
smaLong, and the neutral default 0 — distinct from both Long and Short —
when either SMA is absent or the two SMAs are exactly equal. -/
theorem C1_signal_trichotomy (s : PriceSeries) (w1 w2 i : Nat) :
    (∀ a b, smaAt s w1 i = some a → smaAt s w2 i = some b →
      (a > b → signalAt s w1 w2 i = 1) ∧
      (a < b → signalAt s w1 w2 i = -1) ∧
      (a = b → signalAt s w1 w2 i = 0)) ∧
    ((smaAt s w1 i = none ∨ smaAt s w2 i = none) → signalAt s w1 w2 i = 0) ∧
    (1 : Int) ≠ 0 ∧ (-1 : Int) ≠ 0 := by
  refine ⟨?_, ?_, by decide, by decide⟩
  · intro a b ha hb
    refine ⟨fun h => ?_, fun h => ?_, fun h => ?_⟩
    · simp [signalAt, ha, hb, h]
    · have hng : ¬ a > b := lt_asymm h
      simp [signalAt, ha, hb, hng, h]
    · subst h
      simp [signalAt, ha, hb, lt_irrefl]
  · intro hor
    rcases hor with hn | hn
    · unfold signalAt
      rw [hn]
    · exact signalAt_zero_of_long_none s w1 w2 i hn

theorem C1_signal_trichotomy_witness : signalAt demoC7 1 2 2 = 1 :=
  ((C1_signal_trichotomy demoC7 1 2 2).1 3 (5/2)
    (by norm_num [smaAt, closes, demoC7])
    (by norm_num [smaAt, closes, demoC7])).1 (by norm_num)

/-- C2: positionChange is absent at bar 0 and equals signal i minus
signal (i-1) for i at least 1; the simulator step leaves its state
untouched on any bar whose positionChange is not +2 and not -2, so a
magnitude-1 transition (into or out of Flat) never opens or closes a
position. -/
theorem C2_position_diff (s : PriceSeries) (w1 w2 : Nat) :
    positionAt s w1 w2 0 = none ∧
    (∀ i, 1 ≤ i →
      positionAt s w1 w2 i = some (signalAt s w1 w2 i - signalAt s w1 w2 (i - 1))) ∧
    (∀ (st : Option (Int × Rat) × List Trade) (i : Nat),
      positionAt s w1 w2 i ≠ some 2 → positionAt s w1 w2 i ≠ some (-2) →
      stepTrade w1 w2 s st i = st) := by
  refine ⟨rfl, fun i hi => ?_, fun st i h2 hm2 => stepTrade_noop w1 w2 s st i h2 hm2⟩
  unfold positionAt
  rw [if_neg (by omega)]

theorem C2_position_diff_witness :
    positionAt demoC7 1 2 0 = none ∧ stepTrade 1 2 demoC7 (none, []) 1 = (none, []) :=
  ⟨(C2_position_diff demoC7 1 2).1,
    (C2_position_diff demoC7 1 2).2.2 (none, []) 1
      (by rw [demoC7_pos1]; simp) (by rw [demoC7_pos1]; simp)⟩

/-- C3: a bar with positionChange -2 processed while an entry is open
appends exactly one trade, whose entry fields come from the open entry,
whose exit fields are the bar date and close, whose return percent is
(exit - entry) / entry * 100 and whose holding days are the whole-day
difference of the dates; the open entry is then cleared. -/
theorem C3_exit_trade (s : PriceSeries) (w1 w2 : Nat)
    (st : Option (Int × Rat) × List Trade) (d : Int) (p : Rat) (i : Nat)
    (hopen : st.1 = some (d, p)) (hpos : positionAt s w1 w2 i = some (-2)) :
    stepTrade w1 w2 s st i =
      (none, st.2 ++ [⟨d, p, (barAt s i).date, (barAt s i).close,
        ((barAt s i).close - p) / p * 100, (barAt s i).date - d⟩]) := by
  have h2 : positionAt s w1 w2 i ≠ some 2 := by rw [hpos]; simp
  unfold stepTrade
  rw [if_neg h2, if_pos hpos, hopen]

theorem C3_exit_trade_witness :
    stepTrade 1 2 demoC7 (some (2, 3), []) 4 = (none, [⟨2, 3, 4, 4, 100/3, 2⟩]) := by
  rw [C3_exit_trade demoC7 1 2 (some (2, 3), []) 2 3 4 rfl demoC7_pos4]
  norm_num [barAt, demoC7]

/-- C4: a bar with positionChange +2 processed while an entry is already
open overwrites the open entry with the bar date and close; the trade
list is unchanged, so the prior unmatched entry is silently discarded
and never logged as a trade. -/
theorem C4_overwrite_entry (s : PriceSeries) (w1 w2 : Nat)
    (st : Option (Int × Rat) × List Trade) (d : Int) (p : Rat) (i : Nat)
    (_hopen : st.1 = some (d, p)) (hpos : positionAt s w1 w2 i = some 2) :
    stepTrade w1 w2 s st i = (some ((barAt s i).date, (barAt s i).close), st.2) := by
  unfold stepTrade
  rw [if_pos hpos]

theorem C4_overwrite_entry_witness :
    stepTrade 1 2 demoC7 (some (0, 6), []) 2 = (some (2, 3), []) := by
  rw [C4_overwrite_entry demoC7 1 2 (some (0, 6), []) 0 6 2 rfl demoC7_pos2]
  norm_num [barAt, demoC7]

/-- C5: a trade is only ever produced by a -2 bar with an open entry: a
-2 bar with no open entry is a no-op, any step that changes the trade
list happened on a -2 bar with an open entry, and a series that ends
with an entry still open (the concrete three-bar scenario) yields an
empty trade log with the entry left pending. -/
theorem C5_trade_only_on_exit :
    (∀ (s : PriceSeries) (w1 w2 : Nat) (log : List Trade) (i : Nat),
      positionAt s w1 w2 i = some (-2) →
      stepTrade w1 w2 s (none, log) i = (none, log)) ∧
    (∀ (s : PriceSeries) (w1 w2 : Nat) (st : Option (Int × Rat) × List Trade) (i : Nat),
      (stepTrade w1 w2 s st i).2 ≠ st.2 →
      positionAt s w1 w2 i = some (-2) ∧ st.1 ≠ none) ∧
    tradeLog 1 2 demoOpen = [] ∧ (runBacktest 1 2 demoOpen).1 = some (2, 3) := by
  refine ⟨?_, ?_, ?_, ?_⟩
  · intro s w1 w2 log i hpos
    have h2 : positionAt s w1 w2 i ≠ some 2 := by rw [hpos]; simp
    unfold stepTrade
    rw [if_neg h2, if_pos hpos]
  · intro s w1 w2 st i hne
    unfold stepTrade at hne
    by_cases h2 : positionAt s w1 w2 i = some 2
    · rw [if_pos h2] at hne
      simp at hne
    · rw [if_neg h2] at hne
      by_cases hm2 : positionAt s w1 w2 i = some (-2)
      · rw [if_pos hm2] at hne
        refine ⟨hm2, ?_⟩
        cases hc : st.1 with
        | none => rw [hc] at hne; simp at hne
        | some e => simp [hc]
      · rw [if_neg hm2] at hne
        simp at hne
  · rw [tradeLog, demoOpen_run]
  · rw [demoOpen_run]

theorem C5_trade_only_on_exit_witness :
    stepTrade 1 2 demoC7 (none, []) 4 = (none, []) :=
  C5_trade_only_on_exit.1 demoC7 1 2 [] 4 demoC7_pos4

/-- C6: with a positive window w, the rolling mean at index i of a
series is the arithmetic mean of the closes over the trailing w bars
ending at i inclusive — a window of exactly w bars — whenever
i is at least w - 1, and is absent for earlier bars. -/
theorem C6_sma_window (s : PriceSeries) (w i : Nat) (hw : 0 < w) (hi : i < s.length) :
    (w - 1 ≤ i →
      smaAt s w i = some ((((closes s).drop (i + 1 - w)).take w).sum / (w : Rat)) ∧
      (((closes s).drop (i + 1 - w)).take w).length = w) ∧
    (i < w - 1 → smaAt s w i = none) := by
  have hlen : (closes s).length = s.length := by simp [closes]
  constructor
  · intro hle
    have hwi : w ≤ i + 1 := by omega
    constructor
    · unfold smaAt
      rw [if_pos hwi, List.drop_take]
      have hww : i + 1 - (i + 1 - w) = w := by omega
      rw [hww]
    · rw [List.length_take, List.length_drop, hlen]
      exact Nat.min_eq_left (by omega)
  · intro hlt
    exact smaAt_none s w i (by omega)

theorem C6_sma_window_witness :
    smaAt demoC7 2 0 = none ∧ smaAt demoC7 2 1 = some 4 := by
  constructor
  · exact (C6_sma_window demoC7 2 0 (by norm_num) (by norm_num [demoC7])).2 (by norm_num)
  · have h := ((C6_sma_window demoC7 2 1 (by norm_num) (by norm_num [demoC7])).1
      (by norm_num)).1
    rw [h]
    norm_num [closes, demoC7]

/-- C9: a series shorter than the long window has every long SMA absent,
every signal left at the neutral 0 default, an empty trade log, and the
all-zero summary. -/
theorem C9_short_series (s : PriceSeries) (w1 w2 : Nat) (h : s.length < w2) :
    (∀ i, i < s.length → smaAt s w2 i = none ∧ signalAt s w1 w2 i = 0) ∧
    tradeLog w1 w2 s = [] ∧
    summaryOf (tradeLog w1 w2 s) = ⟨0, 0, 0, 0, 0⟩ := by
  have hsma : ∀ i, i < s.length → smaAt s w2 i = none :=
    fun i hi => smaAt_none s w2 i (by omega)
  have hsig : ∀ i, i < s.length → signalAt s w1 w2 i = 0 :=
    fun i hi => signalAt_zero_of_long_none s w1 w2 i (hsma i hi)
  have hlog : tradeLog w1 w2 s = [] := by
    rw [tradeLog, runBacktest]
    unfold backtestFrom
    rw [foldl_fixed (stepTrade w1 w2 s) (List.range s.length) (none, []) ?_]
    intro i hi
    have hilt : i < s.length := List.mem_range.mp hi
    by_cases hz : i = 0
    · subst hz
      apply stepTrade_noop <;> simp [positionAt]
    · have hp : positionAt s w1 w2 i = some 0 := by
        unfold positionAt
        rw [if_neg hz, hsig i hilt, hsig (i - 1) (by omega)]
        norm_num
      apply stepTrade_noop <;> rw [hp] <;> simp
  exact ⟨fun i hi => ⟨hsma i hi, hsig i hi⟩, hlog, by rw [hlog]; rfl⟩

theorem C9_short_series_witness :
    tradeLog 1 5 demoOpen = [] ∧ summaryOf (tradeLog 1 5 demoOpen) = ⟨0, 0, 0, 0, 0⟩ :=
  ⟨(C9_short_series demoOpen 1 5 (by norm_num [demoOpen])).2.1,
   (C9_short_series demoOpen 1 5 (by norm_num [demoOpen])).2.2⟩

theorem demoC7_summary :
    summaryOf (tradeLog 1 2 demoC7) = ⟨1, 100, 3333/100, 0, 3333/100⟩ := by
  have h1 : pyRound2 100 = 100 := by
    rw [pyRound2_low 100 10000 (by norm_num) (by norm_num) (by norm_num)]
    norm_num
  have h2 : pyRound2 (100/3) = 3333/100 := by
    rw [pyRound2_low (100/3) 3333 (by norm_num) (by norm_num) (by norm_num)]
    norm_num
  rw [demoC7_tradeLog]
  norm_num [summaryOf, h1, h2]

/-- C7 counterexample: the five-bar demo series produces a trade log with
exactly one winning trade (return 100/3 percent) and no losing trade, yet
the reported Avg Win is 33.33, not the trade's return 100/3, because the
engine rounds to two decimal places. -/
theorem C7_counterexample :
    (tradeLog 1 2 demoC7).filter (fun t => 0 < t.retPct) = [⟨2, 3, 4, 4, 100/3, 2⟩] ∧
    (tradeLog 1 2 demoC7).filter (fun t => t.retPct < 0) = [] ∧
    (summaryOf (tradeLog 1 2 demoC7)).avgLoss = 0 ∧
    (summaryOf (tradeLog 1 2 demoC7)).avgWin ≠ 100/3 := by
  refine ⟨?_, ?_, ?_, ?_⟩
  · rw [demoC7_tradeLog]
    norm_num [List.filter]
  · rw [demoC7_tradeLog]
    norm_num [List.filter]
  · rw [demoC7_summary]
  · rw [demoC7_summary]
    norm_num

/-- C7 (amended): the empty trade log yields the all-zero summary, and a
log with exactly one winning trade and no losing trade reports Avg Loss
as the sentinel 0 and Avg Win as that single trade's return rounded to
two decimal places (Python round). -/
theorem C7_summary_boundary (log : List Trade) (t : Trade)
    (hwin : log.filter (fun x => 0 < x.retPct) = [t])
    (hloss : log.filter (fun x => x.retPct < 0) = []) :
    summaryOf [] = ⟨0, 0, 0, 0, 0⟩ ∧
    (summaryOf log).avgLoss = 0 ∧ (summaryOf log).avgWin = pyRound2 t.retPct := by
  have hne : log ≠ [] := by
    intro h
    rw [h] at hwin
    simp at hwin
  refine ⟨rfl, ?_, ?_⟩
  · unfold summaryOf
    rw [if_neg hne]
    simp [hloss]
  · unfold summaryOf
    rw [if_neg hne]
    simp [hwin]

theorem C7_summary_boundary_witness :
    (summaryOf [⟨0, 100, 30, 120, 20, 30⟩]).avgLoss = 0 ∧
    (summaryOf [⟨0, 100, 30, 120, 20, 30⟩]).avgWin = 20 := by
  have h := C7_summary_boundary [⟨0, 100, 30, 120, 20, 30⟩] ⟨0, 100, 30, 120, 20, 30⟩
    (by norm_num [List.filter]) (by norm_num [List.filter])
  refine ⟨h.2.1, h.2.2.trans ?_⟩
  rw [pyRound2_low 20 2000 (by norm_num) (by norm_num) (by norm_num)]
  norm_num

theorem summaryOf_fields (log : List Trade) :
    (summaryOf log).winRate = pyRound2 (recompWinRate log) ∧
    (summaryOf log).avgWin = pyRound2 (recompAvgWin log) ∧
    (summaryOf log).avgLoss = pyRound2 (recompAvgLoss log) ∧
    (summaryOf log).totalPnl = pyRound2 (recompTotalPnl log) := by
  by_cases h : log = []
  · subst h
    simp [summaryOf, recompWinRate, recompAvgWin, recompAvgLoss, recompTotalPnl, pyRound2_zero]
  · simp only [summaryOf, recompWinRate, recompAvgWin, recompAvgLoss, recompTotalPnl,
      if_neg h]
    refine ⟨by rw [List.countP_eq_length_filter], ?_, ?_, by trivial⟩
    · by_cases hw : log.filter (fun t => 0 < t.retPct) = []
      · simp [hw, pyRound2_zero]
      · simp [hw]
    · by_cases hl : log.filter (fun t => t.retPct < 0) = []
      · simp [hl, pyRound2_zero]
      · simp [hl]

/-- C8 (amended): the win rate, average win, average loss and total PnL
recomputed directly from the emitted trade log agree with the summary
values the engine reports only after applying the same two-decimal
rounding the engine applies (they match exactly once rounded). -/
theorem C8_roundtrip (s : PriceSeries) (w1 w2 : Nat) :
    (summaryOf (tradeLog w1 w2 s)).winRate = pyRound2 (recompWinRate (tradeLog w1 w2 s)) ∧
    (summaryOf (tradeLog w1 w2 s)).avgWin = pyRound2 (recompAvgWin (tradeLog w1 w2 s)) ∧
    (summaryOf (tradeLog w1 w2 s)).avgLoss = pyRound2 (recompAvgLoss (tradeLog w1 w2 s)) ∧
    (summaryOf (tradeLog w1 w2 s)).totalPnl = pyRound2 (recompTotalPnl (tradeLog w1 w2 s)) :=
  summaryOf_fields (tradeLog w1 w2 s)

theorem C8_roundtrip_witness :
    (summaryOf (tradeLog 1 2 demoC7)).avgWin = pyRound2 (recompAvgWin (tradeLog 1 2 demoC7)) :=
  (C8_roundtrip demoC7 1 2).2.1

/-- C8 counterexample: on the five-bar demo series the average win
recomputed from the trade log is 100/3 while the engine reports 33.33;
the difference 1/300 exceeds the claimed tolerance of 1e-9. -/
theorem C8_roundtrip_counterexample :
    recompAvgWin (tradeLog 1 2 demoC7) = 100/3 ∧
    (summaryOf (tradeLog 1 2 demoC7)).avgWin = 3333/100 ∧
    (1 : Rat)/1000000000 < 100/3 - 3333/100 := by
  refine ⟨?_, ?_, by norm_num⟩
  · rw [demoC7_tradeLog]
    norm_num [recompAvgWin, List.filter]
  · rw [demoC7_summary]

/-- Invariant carried through the backtest loop after n processed bars:
trades are well-formed (entry strictly before exit, holding days the date
difference), chronologically chained, every logged exit and any open
entry is dated strictly before every unprocessed bar, and every logged
exit precedes the open entry's date. -/
def tradeInv (s : PriceSeries) (n : Nat) (st : Option (Int × Rat) × List Trade) : Prop :=
  (∀ t ∈ st.2, t.entryDate < t.exitDate ∧ t.holdingDays = t.exitDate - t.entryDate) ∧
  List.Chain' (fun a b => a.exitDate < b.entryDate) st.2 ∧
  (∀ j, n ≤ j → j < s.length →
    (∀ t ∈ st.2, t.exitDate < (barAt s j).date) ∧
    (∀ d p, st.1 = some (d, p) → d < (barAt s j).date)) ∧
  (∀ t ∈ st.2, ∀ d p, st.1 = some (d, p) → t.exitDate < d)

theorem dates_strictMono (s : PriceSeries)
    (hp : List.Pairwise (fun a b => a.date < b.date) s) :
    ∀ i j, i < j → j < s.length → (barAt s i).date < (barAt s j).date := by
  intro i j hij hj
  have hi : i < s.length := lt_trans hij hj
  have h1 : barAt s i = s.get ⟨i, hi⟩ := by
    simp [barAt, List.getD_eq_getElem?_getD, List.getElem?_eq_getElem hi]
  have h2 : barAt s j = s.get ⟨j, hj⟩ := by
    simp [barAt, List.getD_eq_getElem?_getD, List.getElem?_eq_getElem hj]
  rw [h1, h2]
  exact List.pairwise_iff_get.mp hp ⟨i, hi⟩ ⟨j, hj⟩ hij

theorem tradeInv_step (s : PriceSeries) (w1 w2 : Nat)
    (hmono : ∀ i j, i < j → j < s.length → (barAt s i).date < (barAt s j).date)
    (n : Nat) (hn : n < s.length) (st : Option (Int × Rat) × List Trade)
    (h : tradeInv s n st) : tradeInv s (n + 1) (stepTrade w1 w2 s st n) := by
  obtain ⟨hwf, hchain, hbound, hopen⟩ := h
  by_cases h2 : positionAt s w1 w2 n = some 2
  · unfold stepTrade
    rw [if_pos h2]
    refine ⟨hwf, hchain, ?_, ?_⟩
    · intro j hj1 hj2
      refine ⟨fun t ht => (hbound j (by omega) hj2).1 t ht, ?_⟩
      intro d p hdp
      have hd : (barAt s n).date = d := by
        injection hdp with h1
        exact congrArg Prod.fst h1
      rw [← hd]
      exact hmono n j (by omega) hj2
    · intro t ht d p hdp
      have hd : (barAt s n).date = d := by
        injection hdp with h1
        exact congrArg Prod.fst h1
      rw [← hd]
      exact (hbound n le_rfl hn).1 t ht
  · by_cases hm2 : positionAt s w1 w2 n = some (-2)
    · cases hst : st.1 with
      | none =>
        unfold stepTrade
        rw [if_neg h2, if_pos hm2, hst]
        refine ⟨hwf, hchain, fun j hj1 hj2 => hbound j (by omega) hj2, hopen⟩
      | some e =>
        unfold stepTrade
        rw [if_neg h2, if_pos hm2, hst]
        refine ⟨?_, ?_, ?_, ?_⟩
        · intro t ht
          rcases List.mem_append.mp ht with hin | hin
          · exact hwf t hin
          · have heq : t = ⟨e.1, e.2, (barAt s n).date, (barAt s n).close,
                ((barAt s n).close - e.2) / e.2 * 100, (barAt s n).date - e.1⟩ := by
              simpa using hin
            subst heq
            exact ⟨(hbound n le_rfl hn).2 e.1 e.2 (by rw [hst]), rfl⟩
        · refine List.Chain'.append hchain (List.chain'_singleton _) ?_
          intro x hx y hy
          have hxm : x ∈ st.2 := mem_of_mem_getLast st.2 x hx
          have hym : (⟨e.1, e.2, (barAt s n).date, (barAt s n).close,
              ((barAt s n).close - e.2) / e.2 * 100, (barAt s n).date - e.1⟩ : Trade) = y := by
            simpa using hy
          subst hym
          exact hopen x hxm e.1 e.2 (by rw [hst])
        · intro j hj1 hj2
          constructor
          · intro t ht
            rcases List.mem_append.mp ht with hin | hin
            · exact (hbound j (by omega) hj2).1 t hin
            · have heq : t = ⟨e.1, e.2, (barAt s n).date, (barAt s n).close,
                  ((barAt s n).close - e.2) / e.2 * 100, (barAt s n).date - e.1⟩ := by
                simpa using hin
              subst heq
              exact hmono n j (by omega) hj2
          · intro d p hdp
            exact absurd hdp (by simp)
        · intro t ht d p hdp
          exact absurd hdp (by simp)
    · rw [stepTrade_noop w1 w2 s st n h2 hm2]
      refine ⟨hwf, hchain, fun j hj1 hj2 => hbound j (by omega) hj2, hopen⟩

theorem tradeInv_run (s : PriceSeries) (w1 w2 : Nat)
    (hmono : ∀ i j, i < j → j < s.length → (barAt s i).date < (barAt s j).date) :
    ∀ n, n ≤ s.length → tradeInv s n (backtestFrom w1 w2 s n) := by
  intro n
  induction n with
  | zero =>
    intro _
    have h0 : backtestFrom w1 w2 s 0 = (none, []) := rfl
    rw [h0]
    refine ⟨?_, ?_, ?_, ?_⟩
    · intro t ht
      simp at ht
    · simp
    · intro j _ _
      refine ⟨fun t ht => by simp at ht, fun d p hdp => by simp at hdp⟩
    · intro t ht
      simp at ht
  | succ k ih =>
    intro hk
    rw [backtestFrom_succ]
    exact tradeInv_step s w1 w2 hmono k (by omega) _ (ih (by omega))

/-- C10: on a series with strictly increasing dates, every logged trade
enters strictly before it exits and holds for at least one whole day,
and the trade log is chronological and non-overlapping: each trade's
exit date is strictly earlier than the next trade's entry date. -/
theorem C10_trade_ordering (s : PriceSeries) (w1 w2 : Nat)
    (hp : List.Pairwise (fun a b => a.date < b.date) s) :
    (∀ t ∈ tradeLog w1 w2 s, t.entryDate < t.exitDate ∧ 1 ≤ t.holdingDays) ∧
    List.Chain' (fun a b => a.exitDate < b.entryDate) (tradeLog w1 w2 s) := by
  have hmono := dates_strictMono s hp
  obtain ⟨hwf, hchain, _, _⟩ := tradeInv_run s w1 w2 hmono s.length le_rfl
  constructor
  · intro t ht
    have hh := hwf t ht
    exact ⟨hh.1, by omega⟩
  · exact hchain

theorem C10_trade_ordering_witness : (2 : Int) < 4 ∧ (1 : Int) ≤ 2 :=
  (C10_trade_ordering demoC7 1 2 (by norm_num [demoC7, List.pairwise_cons])).1
    ⟨2, 3, 4, 4, 100/3, 2⟩ (by rw [demoC7_tradeLog]; simp)
